import Mathlib

/-!
Verification development for the `quant_analysis` repository.

The embedding models the three core components of the repository in exact
rational arithmetic (`ℚ` in place of Python floats, `Option ℚ` in place of
possibly-NaN floats):

* `src/storage.py`   — `DataStore`: tick ingestion (`add_tick`), time-bucketed
  OHLCV resampling (`resample_data`) and the bounded in-memory buffers;
* `src/analytics.py` — `QuantAnalytics`: hedge-ratio regression
  (`calculate_hedge_ratio`) and rolling z-score (`calculate_zscore`);
* `src/alerts.py`    — `AlertSystem`: the alert registry and the predicate
  evaluation loop (`check_alerts`).

Python timestamps (seconds) are modelled as `ℚ`; the pandas stable sort by
timestamp used by `resample` is modelled by insertion sort on the timestamp
preorder, which computes the same list as any stable sort.
-/

set_option maxRecDepth 20000

namespace QuantAnalysis

/-- A single trade tick, mirroring the `tick_data` dictionaries of
`src/storage.py` (`timestamp`, `symbol`, `price`, `quantity`).  The timestamp
is the time in seconds as an exact rational. -/
structure Tick where
  timestamp : ℚ
  symbol : String
  price : ℚ
  quantity : ℚ
deriving DecidableEq

/-- One OHLCV bar, a row of the frames stored in
`DataStore.resampled_data` (`src/storage.py`).  `open` is a Lean keyword, so
that field is called `open_`.  The OHLC fields are `Option ℚ` because pandas
`resample` emits a row for every bucket in the covered range, with NaN
(`none`) prices and zero volume for buckets that contain no tick. -/
structure Bar where
  timestamp : ℚ
  symbol : String
  open_ : Option ℚ
  high : Option ℚ
  low : Option ℚ
  close : Option ℚ
  volume : ℚ
deriving DecidableEq

/-- The in-memory state of `DataStore` (`src/storage.py`): the raw tick
buffer `tick_data`, the three per-timeframe bar frames `resampled_data`
(`'1s'`, `'1min'`, `'5min'`), and whether a SQLite sink was configured
(`db_path`/`self.conn`). -/
structure DataStore where
  tick_data : List Tick
  resampled_1s : List Bar
  resampled_1min : List Bar
  resampled_5min : List Bar
  hasConn : Bool
deriving DecidableEq

/-- `DataStore.__init__`: all buffers empty; `hasConn` records whether a
`db_path` was supplied. -/
def initStore (hasConn : Bool) : DataStore :=
  { tick_data := [], resampled_1s := [], resampled_1min := [],
    resampled_5min := [], hasConn := hasConn }

/-- `pandas.DataFrame.tail(n)`: the last `n` rows. -/
def pdTail (n : ℕ) (l : List α) : List α := l.drop (l.length - n)

/-- `DataStore.add_tick` (`src/storage.py` lines 91-111).  Appends the tick
to the in-memory buffer; if the buffer then exceeds 10000 rows it is trimmed
to its most recent 5000 rows; finally, when a SQLite connection is
configured, the new row is written to the sink.  The sink write is the last
statement and is NOT wrapped in try/except, so a failing write raises after
the in-memory mutation is already done.  `sinkFails` models whether that
external write raises; the returned `Bool` is `true` iff an exception
propagates out of `add_tick` to its caller. -/
def add_tick (s : DataStore) (t : Tick) (sinkFails : Bool) : DataStore × Bool :=
  let td := s.tick_data ++ [t]
  let td := if 10000 < td.length then pdTail 5000 td else td
  ({ s with tick_data := td }, s.hasConn && sinkFails)

/-- Timestamp order on ticks; pandas resampling sorts each symbol group by
this preorder with a stable sort (`Grouper._set_grouper` uses a mergesort
argsort). -/
def tsLe (a b : Tick) : Prop := a.timestamp ≤ b.timestamp

instance : DecidableRel tsLe :=
  fun a b => inferInstanceAs (Decidable (a.timestamp ≤ b.timestamp))

instance : IsTotal Tick tsLe := ⟨fun a b => le_total a.timestamp b.timestamp⟩

instance : IsTrans Tick tsLe := ⟨fun _ _ _ h h' => le_trans h h'⟩

/-- Stable sort of ticks by timestamp.  Insertion sort is stable, hence
computes the same list as the stable mergesort pandas uses. -/
def chronSort (l : List Tick) : List Tick := l.insertionSort tsLe

/-- Lexicographic order on symbols, the order in which
`DataFrame.groupby('symbol')` (with its default `sort=True`) emits the
groups. -/
def strLe (a b : String) : Prop := a ≤ b

instance : DecidableRel strLe := fun a b => inferInstanceAs (Decidable (a ≤ b))

instance : IsTotal String strLe := ⟨fun a b => le_total a b⟩

instance : IsTrans String strLe := ⟨fun _ _ _ h h' => le_trans h h'⟩

/-- The sorted list of distinct symbols occurring in the tick buffer:
the group keys of `tick_data.groupby('symbol')`. -/
def symbolsSorted (tks : List Tick) : List String :=
  ((tks.map (·.symbol)).dedup).insertionSort strLe

/-- The resampling bucket of time `t` for bucket duration `d` seconds:
`floor(t / d)`.  The bucket's label (bar timestamp) is `bucketId * d`,
which is what pandas `resample` produces for the `'1s'`/`'1min'`/`'5min'`
rules (left-closed buckets, left labels, and each of these durations
divides a day so the `origin='start_day'` default floors exactly like the
epoch does). -/
def bucketId (d : ℚ) (t : ℚ) : ℤ := ⌊t / d⌋

/-- A placeholder tick used only for `headD`/`getLastD` on lists that are
provably nonempty at every use site. -/
def dummyTick : Tick := { timestamp := 0, symbol := "", price := 0, quantity := 0 }

/-- The ticks of symbol `sym` landing in bucket `b`, in ingestion order. -/
def bucketTicks (d : ℚ) (tks : List Tick) (sym : String) (b : ℤ) : List Tick :=
  tks.filter (fun t => decide (t.symbol = sym) && decide (bucketId d t.timestamp = b))

/-- The OHLCV bar of one bucket, from the chronologically sorted list
`bts` of the bucket's ticks: `open = 'first'`, `high = 'max'`,
`low = 'min'`, `close = 'last'` applied to the price series of the bucket,
`volume = 'sum'` of the quantity series (`src/storage.py` lines 164-173).
For an empty bucket pandas yields NaN prices and volume 0. -/
def mkBar (d : ℚ) (sym : String) (b : ℤ) (bts : List Tick) : Bar :=
  { timestamp := (b : ℚ) * d
    symbol := sym
    open_ := (bts.map (·.price)).head?
    high := (bts.map (·.price)).max?
    low := (bts.map (·.price)).min?
    close := (bts.map (·.price)).getLast?
    volume := (bts.map (·.quantity)).sum }

/-- One symbol group of the resampling pass: the ticks of `sym`, stably
sorted by timestamp (pandas sorts the group by its datetime index before
binning). -/
def groupTicks (tks : List Tick) (sym : String) : List Tick :=
  chronSort (tks.filter (fun t => decide (t.symbol = sym)))

/-- The first bucket of a (sorted, nonempty) symbol group — the bucket of
the group's earliest timestamp. -/
def symLo (d : ℚ) (sub : List Tick) : ℤ := bucketId d (sub.headD dummyTick).timestamp

/-- The last bucket of a (sorted, nonempty) symbol group. -/
def symHi (d : ℚ) (sub : List Tick) : ℤ := bucketId d (sub.getLastD dummyTick).timestamp

/-- The bars pandas `resample` produces for one symbol group: one bar per
bucket over the full regular range from the group's first to its last
bucket, including empty gap buckets. -/
def symBars (d : ℚ) (sym : String) (sub : List Tick) : List Bar :=
  if sub.isEmpty then []
  else
    (List.range (symHi d sub - symLo d sub + 1).toNat).map (fun k : ℕ =>
      mkBar d sym (symLo d sub + (k : ℤ))
        (sub.filter (fun t => decide (bucketId d t.timestamp = symLo d sub + (k : ℤ)))))

/-- The resampled frame `resampled_df` of one timeframe
(`src/storage.py` lines 162-185): group the ticks by symbol (groups sorted
by symbol), stably sort each group by timestamp, and produce one bar for
every bucket from the group's first to its last bucket. -/
def computeBars (d : ℚ) (tks : List Tick) : List Bar :=
  (symbolsSorted tks).flatMap (fun sym => symBars d sym (groupTicks tks sym))

/-- The merge key used by
`drop_duplicates(subset=['timestamp','symbol'], keep='last')`. -/
def barKey (b : Bar) : ℚ × String := (b.timestamp, b.symbol)

/-- `drop_duplicates(subset=['timestamp','symbol'], keep='last')`: keep
exactly the rows that are the last occurrence of their key, in their
original order. -/
def dedupLast : List Bar → List Bar
  | [] => []
  | b :: rest =>
    if rest.any (fun c => decide (barKey c = barKey b)) then dedupLast rest
    else b :: dedupLast rest

/-- The per-timeframe merge of newly computed bars into the stored frame
(`src/storage.py` lines 187-203): an empty stored frame is replaced by the
new frame, otherwise the two are concatenated and deduplicated by
`(timestamp, symbol)` keeping the last occurrence; then, if the result
exceeds 2000 rows, it is trimmed to its most recent 1000 rows. -/
def mergeTF (stored new : List Bar) : List Bar :=
  let comb := if stored.isEmpty then new else dedupLast (stored ++ new)
  if 2000 < comb.length then pdTail 1000 comb else comb

/-- The length of the merged, deduplicated frame of one timeframe before
the retention trim is applied — the quantity `len(self.resampled_data[tf])`
tested against 2000 on line 201 of `src/storage.py`. -/
def mergedLen (stored new : List Bar) : ℕ :=
  (if stored.isEmpty then new else dedupLast (stored ++ new)).length

/-- The copy of the tick buffer that `resample_data` works on, optionally
filtered by symbol (`src/storage.py` lines 137-143). -/
def tickView (s : DataStore) (symbol : Option String) : List Tick :=
  match symbol with
  | some sym => s.tick_data.filter (fun t => decide (t.symbol = sym))
  | none => s.tick_data

/-- `DataStore.resample_data` (`src/storage.py` lines 130-218).  Works on a
copy of the tick buffer, optionally filtered by symbol; returns unchanged
if that copy is empty; otherwise recomputes the bars of each timeframe
(1 s, 1 min = 60 s, 5 min = 300 s) from the ticks and merges them into the
stored frames.  The optional sink write inside the loop is wrapped by the
per-timeframe `try/except`, so it never affects the in-memory state. -/
def resample_data (s : DataStore) (symbol : Option String) : DataStore :=
  let tks := tickView s symbol
  if tks.isEmpty then s
  else
    { s with
      resampled_1s := mergeTF s.resampled_1s (computeBars 1 tks)
      resampled_1min := mergeTF s.resampled_1min (computeBars 60 tks)
      resampled_5min := mergeTF s.resampled_5min (computeBars 300 tks) }

/-- The states of `DataStore` reachable from a fresh store by any sequence
of `add_tick` and `resample_data` calls. -/
inductive Reachable : DataStore → Prop
  | init (hasConn : Bool) : Reachable (initStore hasConn)
  | tick (s : DataStore) (t : Tick) (sinkFails : Bool) :
      Reachable s → Reachable (add_tick s t sinkFails).1
  | resample (s : DataStore) (symbol : Option String) :
      Reachable s → Reachable (resample_data s symbol)

/-! ## Analytics (`src/analytics.py`)

A pandas `Series` with the default integer index is modelled as a
`List (Option ℚ)`: position `i` holds the value at index `i`, `none`
standing for NaN. -/

/-- The row alignment performed by
`pd.DataFrame({'asset1': a, 'asset2': b}).dropna()`: indices are matched
positionally (default `RangeIndex`) and every row in which either side is
missing — NaN, or beyond the shorter series — is dropped. -/
def alignPairs (a b : List (Option ℚ)) : List (ℚ × ℚ) :=
  (a.zip b).filterMap (fun p =>
    match p with
    | (some x, some y) => some (x, y)
    | _ => none)

/-- Arithmetic mean of a list of rationals (empty list gives `0/0 = 0`). -/
def listMean (l : List ℚ) : ℚ := l.sum / l.length

/-- Sum of squared deviations from the mean, `Σ (x - x̄)²`. -/
def sumSqDev (l : List ℚ) : ℚ :=
  (l.map (fun x => (x - listMean l) ^ 2)).sum

/-- Sum of products of deviations, `Σ (x - x̄)(y - ȳ)`, over aligned rows. -/
def sumProdDev (p : List (ℚ × ℚ)) : ℚ :=
  let xs := p.map Prod.fst
  let ys := p.map Prod.snd
  (p.map (fun q => (q.1 - listMean xs) * (q.2 - listMean ys))).sum

/-- `QuantAnalytics.calculate_hedge_ratio` (`src/analytics.py` lines 45-86),
in exact arithmetic.  After aligning the two series and dropping incomplete
rows, fewer than 2 rows returns `0.0`.  Otherwise the `try` block fits
`statsmodels` `OLS(asset1, [const, asset2]).fit()` and returns the
`'asset2'` coefficient:

* for a non-singular design (asset2 not constant on the aligned rows,
  `Sbb ≠ 0`) that coefficient is the least-squares slope `Sab / Sbb`;
* for a singular design (asset2 constant `c`) `statsmodels` does NOT raise —
  its default `method='pinv'` computes the minimum-norm least-squares
  solution `pinv(X) @ y`.  With `X = [1 c]` repeated on `n` rows,
  `X = u vᵀ` for `u = 1ₙ`, `v = (1, c)ᵀ`, so
  `pinv(X) = v uᵀ / (n (1 + c²))` and the `'asset2'` entry of the solution
  is `mean(asset1) * c / (1 + c²)`.

`olsRaises` models the `except` branch being taken, i.e. the external
regression routine raising for an environmental reason; then the fallback
(lines 80-86) computes `np.cov(a1, a2)[0,1]` — sample covariance,
normalized by `n - 1` — divided by `np.var(a2)` — population variance,
normalized by `n` — returning `0.0` if that variance is zero. -/
def calculate_hedge_ratio (olsRaises : Bool) (asset1_prices asset2_prices : List (Option ℚ)) : ℚ :=
  let df := alignPairs asset1_prices asset2_prices
  if df.length < 2 then 0
  else if olsRaises then
    let n : ℚ := df.length
    let cov := sumProdDev df / (n - 1)
    let var := sumSqDev (df.map Prod.snd) / n
    if var = 0 then 0 else cov / var
  else
    let Sbb := sumSqDev (df.map Prod.snd)
    if Sbb = 0 then
      let c := (df.map Prod.snd).headD 0
      listMean (df.map Prod.fst) * c / (1 + c ^ 2)
    else sumProdDev df / Sbb

/-- The covariance of the aligned rows divided by the variance of the second
coordinate, both with the same normalization (the normalization cancels, so
sample/sample and population/population give the same value).  Modelled from
the spec's words "falls back to `Cov(A,B)/Var(B)`"; used to compare the
code's fallback against the documented formula. -/
def specCovOverVar (p : List (ℚ × ℚ)) : ℚ :=
  sumProdDev p / sumSqDev (p.map Prod.snd)

/-- The trailing window of length `w` ending at position `i`,
`series[i+1-w : i+1]`. -/
def trailingWindow (s : List ℚ) (w : ℕ) (i : ℕ) : List ℚ :=
  (s.drop (i + 1 - w)).take w

/-- The pandas `series.rolling(window=w).std()` value at position `i`,
encoded by its square: `none` where pandas yields NaN (positions before
`w - 1`, or `w = 1` where the `ddof=1` sample deviation of a single point
is NaN), otherwise `some` of the sample variance `Σ (x - x̄)² / (w - 1)`
of the trailing window.  The standard deviation is exactly 0 iff this
variance is exactly 0. -/
def rollingVar (s : List ℚ) (w : ℕ) (i : ℕ) : Option ℚ :=
  if i + 1 < w ∨ w ≤ 1 then none
  else some (sumSqDev (trailingWindow s w i) / (w - 1 : ℕ))

/-- `QuantAnalytics.calculate_zscore` (`src/analytics.py` lines 112-136) on
a series of non-missing values.  A series shorter than the window (or a
window `≤ 0`) yields an all-NaN series of the same length.  Otherwise the
rolling mean and rolling standard deviation over the trailing `w` points
are formed, a standard deviation of exactly 0 is replaced by NaN
(`rolling_std.replace(0, np.nan)`), and the z-score `(x - μ) / σ` is NaN
wherever the rolling statistics are NaN.  Because `σ` is an irrational
square root in general, a defined entry is encoded as the pair
`(x - μ, σ²)` — the z-score it denotes is `(x - μ) / √σ²`; an entry is
`none` exactly where the code produces NaN. -/
def calculate_zscore (series : List ℚ) (window : ℕ) : List (Option (ℚ × ℚ)) :=
  if series.length < window ∨ window = 0 then
    List.replicate series.length none
  else
    (List.range series.length).map (fun i =>
      match rollingVar series window i with
      | none => none
      | some v =>
        if v = 0 then none
        else some (series.getD i 0 - listMean (trailingWindow series window i), v))

/-! ## Alerts (`src/alerts.py`)

The data handed to predicates is kept abstract in a type parameter `δ`.
A predicate is modelled as `δ → Option Bool`: `some b` is a normal return
of `b`, `none` models the callable raising an exception. -/

/-- One registry entry of `AlertSystem.alerts`:
`{'name': …, 'condition_func': …, 'symbol': …, 'active': …}`. -/
structure Alert (δ : Type) where
  name : String
  condition_func : δ → Option Bool
  symbol : Option String
  active : Bool

/-- One entry of the trigger history:
`{'name': …, 'symbol': …, 'timestamp': …}`. -/
structure Triggered where
  name : String
  symbol : Option String
  timestamp : ℚ
deriving DecidableEq

/-- The state of `AlertSystem`: the registry and the append-only history. -/
structure AlertSystem (δ : Type) where
  alerts : List (Alert δ)
  alert_history : List Triggered

/-- `AlertSystem.add_alert`: appends a new entry, `active` by default. -/
def add_alert (sys : AlertSystem δ) (name : String) (condition_func : δ → Option Bool)
    (symbol : Option String) : AlertSystem δ :=
  { sys with
    alerts := sys.alerts ++
      [{ name := name, condition_func := condition_func, symbol := symbol, active := true }] }

/-- `AlertSystem.remove_alert` (`src/alerts.py` lines 32-41): the list
comprehension keeps exactly the alerts whose name differs from the
argument, removing every match. -/
def remove_alert (sys : AlertSystem δ) (name : String) : AlertSystem δ :=
  { sys with alerts := sys.alerts.filter (fun a => decide (a.name ≠ name)) }

/-- The loop shared by `activate_alert`/`deactivate_alert`
(`src/alerts.py` lines 94-108): walk the registry, set the `active` flag of
the FIRST alert whose name matches, and `break`; if nothing matches the
registry is unchanged. -/
def setActiveFirst (flag : Bool) (name : String) : List (Alert δ) → List (Alert δ)
  | [] => []
  | a :: rest =>
    if a.name = name then { a with active := flag } :: rest
    else a :: setActiveFirst flag name rest

/-- `AlertSystem.activate_alert`. -/
def activate_alert (sys : AlertSystem δ) (name : String) : AlertSystem δ :=
  { sys with alerts := setActiveFirst true name sys.alerts }

/-- `AlertSystem.deactivate_alert`. -/
def deactivate_alert (sys : AlertSystem δ) (name : String) : AlertSystem δ :=
  { sys with alerts := setActiveFirst false name sys.alerts }

/-- The symbol filter of `check_alerts`
(`if alert['symbol'] and symbol and alert['symbol'] != symbol: continue`):
an alert is skipped iff both its symbol and the call's symbol are present
and differ. -/
def skipSymbol (a : Alert δ) (symbol : Option String) : Bool :=
  match a.symbol, symbol with
  | some as_, some s => decide (as_ ≠ s)
  | _, _ => false

/-- The evaluation loop of `AlertSystem.check_alerts`
(`src/alerts.py` lines 54-82), returning the triggered entries in registry
order.  Inactive alerts and symbol-filtered alerts are skipped; the
predicate call sits in a `try` block, so a raising predicate (`none`) is
caught, printed, and contributes nothing — the loop continues with the
remaining alerts. -/
def checkList (data : δ) (symbol : Option String) (now : ℚ) :
    List (Alert δ) → List Triggered
  | [] => []
  | a :: rest =>
    if a.active = false then checkList data symbol now rest
    else if skipSymbol a symbol then checkList data symbol now rest
    else
      match a.condition_func data with
      | some true =>
        { name := a.name
          symbol := (match symbol with | some s => some s | none => a.symbol)
          timestamp := now } :: checkList data symbol now rest
      | some false => checkList data symbol now rest
      | none => checkList data symbol now rest

/-- `AlertSystem.check_alerts` (`src/alerts.py` lines 43-82): evaluates the
registry against `data`, returns the triggered list, and appends each
triggered entry to the history in order (`pd.Timestamp.now()` is passed in
as `now`). -/
def check_alerts (sys : AlertSystem δ) (data : δ) (symbol : Option String)
    (now : ℚ) : List Triggered × AlertSystem δ :=
  let trig := checkList data symbol now sys.alerts
  (trig, { sys with alert_history := sys.alert_history ++ trig })

/-! ## Concrete fixtures used by the per-claim theorems and witnesses -/

/-- The three ticks of the spec's resampling scenario:
`[(t=0, BTCUSDT, 100, 1), (t=0.5, BTCUSDT, 101, 2), (t=0.9, BTCUSDT, 99, 1)]`,
in ingestion order. -/
def demoTicks : List Tick :=
  [ { timestamp := 0, symbol := "BTCUSDT", price := 100, quantity := 1 }
  , { timestamp := 1/2, symbol := "BTCUSDT", price := 101, quantity := 2 }
  , { timestamp := 9/10, symbol := "BTCUSDT", price := 99, quantity := 1 } ]

/-- A fresh store holding exactly the scenario ticks. -/
def demoStore : DataStore :=
  { initStore false with tick_data := demoTicks }

/-- The single 1-second bar the scenario must produce:
`{open: 100, high: 101, low: 99, close: 99, volume: 4}` for bucket 0. -/
def demoBar : Bar :=
  { timestamp := 0, symbol := "BTCUSDT", open_ := some 100, high := some 101,
    low := some 99, close := some 99, volume := 4 }

/-- The `i`-th tick of the idempotence counterexample: a BTCUSDT trade at
the whole second `10000 + i`. -/
def cexTickAt (i : ℕ) : Tick :=
  { timestamp := (10000 + i : ℕ), symbol := "BTCUSDT", price := 100, quantity := 1 }

/-- 1501 ticks at the whole seconds 10000, …, 11500 (one per 1-second
bucket), used by the idempotence counterexample. -/
def cexTicks : List Tick := (List.range 1501).map cexTickAt

/-- The `i`-th stale stored bar of the idempotence counterexample, in
bucket `i`. -/
def cexOldBar (i : ℕ) : Bar :=
  { timestamp := (i : ℕ), symbol := "BTCUSDT", open_ := some 1, high := some 1,
    low := some 1, close := some 1, volume := 1 }

/-- 1000 stored 1-second bars whose buckets 0, …, 999 are disjoint from the
buckets of `cexTicks` — the situation after earlier resampling of ticks that
have since been evicted from the raw buffer. -/
def cexOldBars : List Bar := (List.range 1000).map cexOldBar

/-- The bar that resampling `cexTicks` at the 1-second timeframe produces
for bucket `10000 + k`. -/
def cexNewBar (k : ℕ) : Bar :=
  { timestamp := (10000 + k : ℕ), symbol := "BTCUSDT", open_ := some 100,
    high := some 100, low := some 100, close := some 100, volume := 1 }

/-- The store state of the idempotence counterexample. -/
def cexStore : DataStore :=
  { tick_data := cexTicks, resampled_1s := cexOldBars,
    resampled_1min := [], resampled_5min := [], hasConn := false }

/-- A tick used by the sink-failure counterexample. -/
def cexTick : Tick :=
  { timestamp := 1, symbol := "BTCUSDT", price := 50000, quantity := 1/10 }

/-- An alert whose predicate raises on every input (models a broken
callable). -/
def badAlert : Alert Unit :=
  { name := "bad", condition_func := fun _ => none, symbol := none, active := true }

/-- An alert whose predicate returns `True` on every input. -/
def goodAlert : Alert Unit :=
  { name := "good", condition_func := fun _ => some true, symbol := none, active := true }

/-- A registry containing a raising alert followed by a triggering alert. -/
def demoAlertSys : AlertSystem Unit :=
  { alerts := [badAlert, goodAlert], alert_history := [] }

/-- The same registry without the raising alert. -/
def demoAlertSys' : AlertSystem Unit :=
  { alerts := [goodAlert], alert_history := [] }

/-- Two alerts sharing the name "X" (duplicate names are legal), used by the
registry-operations witness. -/
def alertX1 : Alert Unit :=
  { name := "X", condition_func := fun _ => some true, symbol := none, active := true }

/-- Second alert named "X". -/
def alertX2 : Alert Unit :=
  { name := "X", condition_func := fun _ => some false, symbol := none, active := true }

/-- A registry with the two duplicate-name alerts. -/
def dupSys : AlertSystem Unit :=
  { alerts := [alertX1, alertX2], alert_history := [] }

/-! ## Shared helper lemmas -/

theorem resample_data_tick_data (s : DataStore) (symbol : Option String) :
    (resample_data s symbol).tick_data = s.tick_data := by
  simp only [resample_data]
  split <;> rfl

theorem pdTail_length_le (n : ℕ) (l : List α) : (pdTail n l).length ≤ n := by
  simp only [pdTail, List.length_drop]
  omega

theorem mergeTF_length_le (stored new : List Bar) : (mergeTF stored new).length ≤ 2000 := by
  simp only [mergeTF]
  by_cases h : 2000 < (if stored.isEmpty then new else dedupLast (stored ++ new)).length
  · rw [if_pos h]
    exact le_trans (pdTail_length_le 1000 _) (by norm_num)
  · rw [if_neg h]
    omega

/-! ## C9 — `resample_data` never modifies the raw tick buffer -/

/-- C9: for every store state and symbol argument, `resample_data` leaves
`tick_data` unchanged — it operates on a copy of the tick buffer and only
reassigns the `resampled_data` frames. -/
theorem C9_resample_data_preserves_ticks (s : DataStore) (symbol : Option String) :
    (resample_data s symbol).tick_data = s.tick_data :=
  resample_data_tick_data s symbol

/-! ## C10 — buffer bounds invariant -/

/-- C10: in every state reachable by any sequence of `add_tick` and
`resample_data` calls, the raw tick buffer holds at most 10000 ticks and
each stored timeframe frame holds at most 2000 bars. -/
theorem C10_buffer_bounds (s : DataStore) (h : Reachable s) :
    s.tick_data.length ≤ 10000 ∧ s.resampled_1s.length ≤ 2000 ∧
      s.resampled_1min.length ≤ 2000 ∧ s.resampled_5min.length ≤ 2000 := by
  induction h with
  | init c => simp [initStore]
  | tick s t sinkFails _ ih =>
    obtain ⟨h1, h2, h3, h4⟩ := ih
    refine ⟨?_, h2, h3, h4⟩
    simp only [add_tick]
    split
    · exact le_trans (pdTail_length_le 5000 _) (by norm_num)
    · omega
  | resample s symbol _ ih =>
    obtain ⟨h1, h2, h3, h4⟩ := ih
    refine ⟨by rw [resample_data_tick_data]; exact h1, ?_, ?_, ?_⟩ <;>
      · simp only [resample_data]
        split
        · assumption
        · exact mergeTF_length_le _ _

/-- Witness for C10 at the freshly initialized store. -/
theorem C10_buffer_bounds_witness :
    (initStore false).tick_data.length ≤ 10000 ∧
      (initStore false).resampled_1s.length ≤ 2000 ∧
      (initStore false).resampled_1min.length ≤ 2000 ∧
      (initStore false).resampled_5min.length ≤ 2000 :=
  C10_buffer_bounds (initStore false) (Reachable.init false)

/-! ## C5 — sink write failure in `add_tick` -/

/-- C5 counterexample: on a store configured with a durable sink, a failing
sink write does NOT let `add_tick` return normally — the `to_sql` call is
the last statement of `add_tick` and is not wrapped in `try/except`, so the
exception propagates to the caller (second component `true`), contradicting
the claim that the failure is non-fatal and logged. -/
theorem C5_add_tick_sink_failure_propagates_cex :
    (add_tick (initStore true) cexTick true).2 = true := rfl

/-- C5 amended: when the sink write of `add_tick` fails, the exception
propagates to the caller (it is neither caught nor logged), but the
in-memory tick buffer still ends with the newly appended tick — the
in-memory mutation happens before the sink write and is not rolled back. -/
theorem C5_add_tick_sink_failure_no_rollback (s : DataStore) (t : Tick)
    (h : s.hasConn = true) :
    (add_tick s t true).2 = true ∧
      ((add_tick s t true).1).tick_data.getLast? = some t := by
  constructor
  · simp [add_tick, h]
  · simp only [add_tick]
    split
    · unfold pdTail
      have hk : (s.tick_data ++ [t]).length - 5000 ≤ s.tick_data.length := by
        simp only [List.length_append, List.length_singleton]
        omega
      rw [List.drop_append_of_le_length hk, List.getLast?_concat]
    · rw [List.getLast?_concat]

/-- Witness for the amended C5 statement at a concrete store and tick. -/
theorem C5_add_tick_sink_failure_no_rollback_witness :
    (add_tick { initStore true with tick_data := demoTicks } cexTick true).2 = true ∧
      ((add_tick { initStore true with tick_data := demoTicks } cexTick true).1).tick_data.getLast?
        = some cexTick :=
  C5_add_tick_sink_failure_no_rollback { initStore true with tick_data := demoTicks } cexTick rfl

/-! ## C2 — the hedge-ratio fallback versus `Cov(A,B)/Var(B)` -/

unseal Rat.mul Rat.inv Rat.add Rat.sub in
/-- C2: the fallback of `calculate_hedge_ratio` does not compute
`Cov(A,B)/Var(B)`.  At the aligned series `A = B = [0, 1]` (2 rows, variance
of `B` nonzero) with the OLS fit raising, the code returns
`np.cov(A,B)[0,1] / np.var(B) = (1/2) / (1/4) = 2` — `np.cov` normalizes by
`n − 1` while `np.var` normalizes by `n` — whereas the documented formula
`Cov(A,B)/Var(B)` equals `1` under any single normalization convention. -/
theorem C2_hedge_fallback_cov_var_mismatch :
    calculate_hedge_ratio true [some 0, some 1] [some 0, some 1] = 2 ∧
      specCovOverVar (alignPairs [some 0, some 1] [some 0, some 1]) = 1 := by
  decide

/-! ## C3 — hedge ratio on a zero-variance second series -/

unseal Rat.mul Rat.inv Rat.add Rat.sub in
/-- C3: on aligned series `A = [1, 2]`, `B = [1, 1]` (2 rows, `B` constant,
zero variance) `calculate_hedge_ratio` does not return `0.0`.  `statsmodels`
`OLS` does not raise on the singular design `[const, B]`; its default
`pinv` method returns the minimum-norm least-squares solution, whose
`asset2` coefficient is `mean(A)·c/(1+c²) = (3/2)·1/2 = 3/4 ≠ 0`.  The
`var == 0 → 0.0` fallback the claim describes is unreachable for this
input because no exception occurs. -/
theorem C3_hedge_constant_series_nonzero :
    calculate_hedge_ratio false [some 1, some 2] [some 1, some 1] = 3/4 ∧
      calculate_hedge_ratio false [some 1, some 2] [some 1, some 1] ≠ 0 := by
  decide

/-! ## C4 — a raising predicate never aborts the evaluation loop -/

theorem checkList_erase_failing {δ : Type} (data : δ) (symbol : Option String) (now : ℚ)
    (a : Alert δ) (hact : a.active = true) (hskip : skipSymbol a symbol = false)
    (hraise : a.condition_func data = none) (pre post : List (Alert δ)) :
    checkList data symbol now (pre ++ a :: post) = checkList data symbol now (pre ++ post) := by
  induction pre with
  | nil => simp [checkList, hact, hskip, hraise]
  | cons b t ih => simp only [List.cons_append, checkList, List.append_eq, ih]

/-- C4: if the predicate of one registered, active, symbol-matching alert
raises (modelled by `condition_func data = none`), `check_alerts` behaves
exactly as it would on the registry without that alert: the exception is
caught inside the per-alert `try`, the alert contributes no trigger, and
every remaining alert is still evaluated, so the returned triggered list
and the appended history reflect the outcomes of all other alerts. -/
theorem C4_predicate_failure_isolated {δ : Type} (sys : AlertSystem δ) (data : δ)
    (symbol : Option String) (now : ℚ) (pre post : List (Alert δ)) (a : Alert δ)
    (hsplit : sys.alerts = pre ++ a :: post)
    (hact : a.active = true) (hskip : skipSymbol a symbol = false)
    (hraise : a.condition_func data = none) :
    (check_alerts sys data symbol now).1 =
      (check_alerts { sys with alerts := pre ++ post } data symbol now).1 ∧
    (check_alerts sys data symbol now).2.alert_history =
      (check_alerts { sys with alerts := pre ++ post } data symbol now).2.alert_history := by
  have key := checkList_erase_failing data symbol now a hact hskip hraise pre post
  constructor <;> simp [check_alerts, hsplit, key]

/-- Witness for C4: a raising alert followed by a triggering alert evaluates
exactly like the registry holding only the triggering alert. -/
theorem C4_predicate_failure_isolated_witness :
    (check_alerts demoAlertSys () none 0).1 = (check_alerts demoAlertSys' () none 0).1 ∧
    (check_alerts demoAlertSys () none 0).2.alert_history =
      (check_alerts demoAlertSys' () none 0).2.alert_history :=
  C4_predicate_failure_isolated demoAlertSys () none 0 [] [goodAlert] badAlert rfl rfl rfl rfl

/-! ## C8 — registry operations -/

theorem setActiveFirst_no_match {δ : Type} (flag : Bool) (nm : String)
    (l : List (Alert δ)) (h : ∀ a ∈ l, a.name ≠ nm) : setActiveFirst flag nm l = l := by
  induction l with
  | nil => rfl
  | cons b t ih =>
    simp only [setActiveFirst]
    rw [if_neg (h b (List.mem_cons_self b t)), ih (fun a ha => h a (List.mem_cons_of_mem b ha))]

theorem setActiveFirst_first_match {δ : Type} (flag : Bool) (nm : String)
    (pre post : List (Alert δ)) (al : Alert δ) (hpre : ∀ b ∈ pre, b.name ≠ nm)
    (hal : al.name = nm) :
    setActiveFirst flag nm (pre ++ al :: post) = pre ++ { al with active := flag } :: post := by
  induction pre with
  | nil => simp [setActiveFirst, hal]
  | cons b t ih =>
    simp only [List.cons_append, setActiveFirst, List.append_eq]
    rw [if_neg (hpre b (List.mem_cons_self b t)),
      ih (fun c hc => hpre c (List.mem_cons_of_mem b hc))]

theorem length_filter_add_length_filter_not (l : List α) (p : α → Bool) :
    (l.filter p).length + (l.filter (fun a => !(p a))).length = l.length := by
  induction l with
  | nil => rfl
  | cons b t ih => by_cases hb : p b = true <;> simp [List.filter_cons, hb, ← ih] <;> omega

/-- C8: `remove_alert` removes every alert whose name matches and no other
alert (the survivors are exactly the non-matching alerts, in order), while
`activate_alert`/`deactivate_alert` flip the `active` flag of only the
first matching alert and leave the registry unchanged when nothing
matches. -/
theorem C8_registry_operations {δ : Type} (sys : AlertSystem δ) (nm : String) :
    (∀ a ∈ (remove_alert sys nm).alerts, a.name ≠ nm) ∧
    (remove_alert sys nm).alerts.Sublist sys.alerts ∧
    (remove_alert sys nm).alerts.length
        + (sys.alerts.filter (fun a => decide (a.name = nm))).length = sys.alerts.length ∧
    ((∀ a ∈ sys.alerts, a.name ≠ nm) →
      activate_alert sys nm = sys ∧ deactivate_alert sys nm = sys) ∧
    (∀ (pre post : List (Alert δ)) (al : Alert δ),
      sys.alerts = pre ++ al :: post → (∀ b ∈ pre, b.name ≠ nm) → al.name = nm →
      (activate_alert sys nm).alerts = pre ++ { al with active := true } :: post ∧
      (deactivate_alert sys nm).alerts = pre ++ { al with active := false } :: post) := by
  refine ⟨?_, ?_, ?_, ?_, ?_⟩
  · intro a ha
    have := List.of_mem_filter ha
    simpa using this
  · exact List.filter_sublist _
  · have h := length_filter_add_length_filter_not sys.alerts (fun a => decide (a.name = nm))
    have hc : sys.alerts.filter (fun a => !(decide (a.name = nm)))
        = sys.alerts.filter (fun a => decide (a.name ≠ nm)) :=
      List.filter_congr (fun a _ => by simp)
    simp only [remove_alert]
    rw [← hc]
    omega
  · intro h
    constructor
    · simp only [activate_alert, setActiveFirst_no_match true nm sys.alerts h]
    · simp only [deactivate_alert, setActiveFirst_no_match false nm sys.alerts h]
  · intro pre post al hsplit hpre hal
    constructor
    · simp only [activate_alert, hsplit, setActiveFirst_first_match true nm pre post al hpre hal]
    · simp only [deactivate_alert, hsplit, setActiveFirst_first_match false nm pre post al hpre hal]

/-- Witness for C8 on a registry with two alerts both named "X":
deactivation flips only the first, removal removes every match. -/
theorem C8_registry_operations_witness :
    (deactivate_alert dupSys "X").alerts = [{ alertX1 with active := false }, alertX2] ∧
      (∀ a ∈ (remove_alert dupSys "X").alerts, a.name ≠ "X") :=
  ⟨((C8_registry_operations dupSys "X").2.2.2.2 [] [alertX2] alertX1 rfl
      (by simp) rfl).2,
    (C8_registry_operations dupSys "X").1⟩

/-! ## C6 — rolling z-score NaN handling -/

/-- C6: for every input series and window `w ≥ 1`: the output has the same
length as the input; a series shorter than the window yields the all-NaN
series; every entry at an index below `w − 1` is NaN; and every entry whose
trailing-`w` rolling standard deviation is exactly 0 (i.e. the rolling
variance is exactly 0) is NaN instead of a division-by-zero value.  The
embedded function is total, mirroring that the code raises no exception on
any of these inputs. -/
theorem C6_zscore_undefined_handling (s : List ℚ) (w : ℕ) (hw : 1 ≤ w) :
    (calculate_zscore s w).length = s.length ∧
    (s.length < w → calculate_zscore s w = List.replicate s.length none) ∧
    (∀ i, i + 1 < w → (calculate_zscore s w).getD i none = none) ∧
    (∀ i, rollingVar s w i = some 0 → (calculate_zscore s w).getD i none = none) := by
  refine ⟨?_, ?_, ?_, ?_⟩
  · simp only [calculate_zscore]
    split
    · simp
    · simp
  · intro hlt
    have : s.length < w ∨ w = 0 := Or.inl hlt
    simp only [calculate_zscore, if_pos this]
  · intro i hi
    by_cases hcase : s.length < w ∨ w = 0
    · simp only [calculate_zscore, if_pos hcase, List.getD_eq_getElem?_getD,
        List.getElem?_replicate]
      split <;> rfl
    · by_cases hir : i < s.length
      · simp only [calculate_zscore, if_neg hcase, List.getD_eq_getElem?_getD,
          List.getElem?_map, List.getElem?_range, hir]
        simp [rollingVar, Or.inl hi]
      · simp only [calculate_zscore, if_neg hcase, List.getD_eq_getElem?_getD]
        rw [List.getElem?_eq_none (by simpa using not_lt.mp hir)]
        rfl
  · intro i hvar
    have hcond : ¬(i + 1 < w ∨ w ≤ 1) := by
      intro hc
      simp [rollingVar, if_pos hc] at hvar
    by_cases hcase : s.length < w ∨ w = 0
    · simp only [calculate_zscore, if_pos hcase, List.getD_eq_getElem?_getD,
        List.getElem?_replicate]
      split <;> rfl
    · by_cases hir : i < s.length
      · simp only [calculate_zscore, if_neg hcase, List.getD_eq_getElem?_getD,
          List.getElem?_map, List.getElem?_range, hir]
        simp [hvar]
      · simp only [calculate_zscore, if_neg hcase, List.getD_eq_getElem?_getD]
        rw [List.getElem?_eq_none (by simpa using not_lt.mp hir)]
        rfl

unseal Rat.mul Rat.inv Rat.add Rat.sub in
/-- Witness for C6 on the constant series `[1, 1, 1]` with window 2: the
rolling variance at index 1 is exactly 0 and the z-score entry there is
NaN; the output length matches the input. -/
theorem C6_zscore_undefined_handling_witness :
    (calculate_zscore [1, 1, 1] 2).getD 1 none = none ∧
      (calculate_zscore [1, 1, 1] 2).length = 3 :=
  ⟨(C6_zscore_undefined_handling [1, 1, 1] 2 (by decide)).2.2.2 1 (by decide),
    (C6_zscore_undefined_handling [1, 1, 1] 2 (by decide)).1⟩

/-! ## C1 — OHLCV bucket semantics of the resampling pass -/

theorem orderedInsert_eq_cons (a : Tick) (m : List Tick) (h : ∀ x ∈ m, tsLe a x) :
    m.orderedInsert tsLe a = a :: m := by
  cases m with
  | nil => rfl
  | cons c t => exact List.orderedInsert_of_le tsLe t (h c (List.mem_cons_self c t))

theorem filter_orderedInsert (p : Tick → Bool) (a : Tick) (l : List Tick)
    (hl : l.Sorted tsLe) :
    (l.orderedInsert tsLe a).filter p =
      if p a then (l.filter p).orderedInsert tsLe a else l.filter p := by
  induction l with
  | nil =>
    by_cases hpa : p a <;> simp [List.orderedInsert, List.filter_cons, hpa]
  | cons c t ih =>
    obtain ⟨hct, ht⟩ := List.sorted_cons.mp hl
    by_cases hac : tsLe a c
    · rw [List.orderedInsert_of_le tsLe t hac]
      by_cases hpa : p a
      · have hle : ∀ x ∈ (c :: t).filter p, tsLe a x := by
          intro x hx
          rcases List.mem_cons.mp (List.mem_of_mem_filter hx) with h | h
          · exact h ▸ hac
          · exact le_trans hac (hct x h)
        rw [if_pos hpa, List.filter_cons_of_pos hpa, orderedInsert_eq_cons a _ hle]
      · rw [if_neg hpa, List.filter_cons_of_neg hpa]
    · simp only [List.orderedInsert, if_neg hac]
      by_cases hpc : p c
      · by_cases hpa : p a
        · rw [List.filter_cons_of_pos hpc, ih ht, if_pos hpa, if_pos hpa,
            List.filter_cons_of_pos hpc]
          simp only [List.orderedInsert, if_neg hac]
        · rw [List.filter_cons_of_pos hpc, ih ht, if_neg hpa, if_neg hpa,
            List.filter_cons_of_pos hpc]
      · by_cases hpa : p a
        · rw [List.filter_cons_of_neg hpc, ih ht, if_pos hpa, if_pos hpa,
            List.filter_cons_of_neg hpc]
        · rw [List.filter_cons_of_neg hpc, ih ht, if_neg hpa, if_neg hpa,
            List.filter_cons_of_neg hpc]

theorem filter_chronSort (p : Tick → Bool) (l : List Tick) :
    (chronSort l).filter p = chronSort (l.filter p) := by
  induction l with
  | nil => rfl
  | cons a t ih =>
    simp only [chronSort, List.insertionSort] at ih ⊢
    rw [filter_orderedInsert p a _ (List.sorted_insertionSort tsLe t), ih]
    by_cases hpa : p a
    · rw [if_pos hpa, List.filter_cons_of_pos hpa, List.insertionSort]
    · rw [if_neg hpa, List.filter_cons_of_neg hpa]

theorem sorted_head_le (l : List Tick) (hl : l.Sorted tsLe) (x : Tick) (hx : x ∈ l) :
    tsLe (l.headD dummyTick) x := by
  cases l with
  | nil => cases hx
  | cons c t =>
    rcases List.mem_cons.mp hx with h | h
    · exact h ▸ le_refl c.timestamp
    · exact (List.sorted_cons.mp hl).1 x h

theorem sorted_le_getLastD (l : List Tick) (hl : l.Sorted tsLe) :
    ∀ x ∈ l, tsLe x (l.getLastD dummyTick) := by
  induction l with
  | nil => intro x hx; cases hx
  | cons c t ih =>
    intro x hx
    cases t with
    | nil =>
      rcases List.mem_cons.mp hx with h | h
      · exact h ▸ le_refl c.timestamp
      · cases h
    | cons b tl =>
      obtain ⟨hcb, hbt⟩ := List.sorted_cons.mp hl
      have hlast : ((c :: b :: tl).getLastD dummyTick) = ((b :: tl).getLastD dummyTick) := by
        simp [List.getLastD_cons]
      rw [hlast]
      rcases List.mem_cons.mp hx with h | h
      · exact h ▸ le_trans (hcb b (List.mem_cons_self b tl))
          (ih hbt b (List.mem_cons_self b tl))
      · exact ih hbt x h

theorem max?_perm {l l2 : List ℚ} (h : l.Perm l2) : l.max? = l2.max? := by
  induction h with
  | nil => rfl
  | cons a _ ih => simp [List.max?_cons, ih]
  | swap a b l =>
    simp only [List.max?_cons]
    cases l.max? <;> simp [max_comm, max_left_comm]
  | trans _ _ ih1 ih2 => exact ih1.trans ih2

theorem min?_perm {l l2 : List ℚ} (h : l.Perm l2) : l.min? = l2.min? := by
  induction h with
  | nil => rfl
  | cons a _ ih => simp [List.min?_cons, ih]
  | swap a b l =>
    simp only [List.min?_cons]
    cases l.min? <;> simp [min_comm, min_left_comm]
  | trans _ _ ih1 ih2 => exact ih1.trans ih2

theorem computeBars_bucket (d : ℚ) (hd : 0 < d) (tks : List Tick) (sym : String) (b : ℤ)
    (hne : bucketTicks d tks sym b ≠ []) :
    ∃ bar ∈ computeBars d tks,
      bar.symbol = sym ∧ bar.timestamp = (b : ℚ) * d ∧
      bar.open_ = ((chronSort (bucketTicks d tks sym b)).map (·.price)).head? ∧
      bar.close = ((chronSort (bucketTicks d tks sym b)).map (·.price)).getLast? ∧
      bar.high = ((bucketTicks d tks sym b).map (·.price)).max? ∧
      bar.low = ((bucketTicks d tks sym b).map (·.price)).min? ∧
      bar.volume = ((bucketTicks d tks sym b).map (·.quantity)).sum := by
  have hbt : bucketTicks d tks sym b
      = (tks.filter (fun t => decide (t.symbol = sym))).filter
          (fun t => decide (bucketId d t.timestamp = b)) := by
    rw [bucketTicks, List.filter_filter]
    exact (List.filter_congr (fun x _ => Bool.and_comm _ _)).symm
  have hsubfilter : (groupTicks tks sym).filter (fun t => decide (bucketId d t.timestamp = b))
      = chronSort (bucketTicks d tks sym b) := by
    rw [hbt, groupTicks, filter_chronSort]
  have hFne : tks.filter (fun t => decide (t.symbol = sym)) ≠ [] := by
    intro h
    rw [hbt, h] at hne
    exact hne rfl
  have hsubne : groupTicks tks sym ≠ [] := by
    intro h
    apply hFne
    have hlen :=
      (List.perm_insertionSort tsLe (tks.filter (fun t => decide (t.symbol = sym)))).length_eq
    rw [groupTicks, chronSort] at h
    rw [h] at hlen
    exact List.eq_nil_of_length_eq_zero hlen.symm
  have hsorted : (groupTicks tks sym).Sorted tsLe := List.sorted_insertionSort tsLe _
  obtain ⟨u, hu⟩ := List.exists_mem_of_ne_nil _ hne
  have huF : u ∈ tks.filter (fun t => decide (t.symbol = sym)) := by
    rw [hbt] at hu
    exact List.mem_of_mem_filter hu
  have hub : bucketId d u.timestamp = b := by
    rw [hbt] at hu
    have := List.of_mem_filter hu
    simpa using this
  have husub : u ∈ groupTicks tks sym := by
    rw [groupTicks, chronSort]
    exact (List.mem_insertionSort tsLe).mpr huF
  have hsymmem : sym ∈ symbolsSorted tks := by
    have huT : u ∈ tks := List.mem_of_mem_filter huF
    have husym : u.symbol = sym := by
      have := List.of_mem_filter huF
      simpa using this
    simp only [symbolsSorted, List.mem_insertionSort, List.mem_dedup, List.mem_map]
    exact ⟨u, huT, husym⟩
  have hmono : ∀ {x y : ℚ}, x ≤ y → bucketId d x ≤ bucketId d y := by
    intro x y hxy
    exact Int.floor_le_floor (by gcongr)
  have hlo : symLo d (groupTicks tks sym) ≤ b := by
    rw [← hub]
    exact hmono (sorted_head_le _ hsorted u husub)
  have hhi : b ≤ symHi d (groupTicks tks sym) := by
    rw [← hub]
    exact hmono (sorted_le_getLastD _ hsorted u husub)
  have hk : (b - symLo d (groupTicks tks sym)).toNat
      < (symHi d (groupTicks tks sym) - symLo d (groupTicks tks sym) + 1).toNat := by omega
  have hbk : symLo d (groupTicks tks sym)
      + (((b - symLo d (groupTicks tks sym)).toNat : ℕ) : ℤ) = b := by omega
  have hmem : mkBar d sym b
      ((groupTicks tks sym).filter (fun t => decide (bucketId d t.timestamp = b)))
      ∈ symBars d sym (groupTicks tks sym) := by
    have h0 := List.mem_map_of_mem
      (fun k : ℕ => mkBar d sym (symLo d (groupTicks tks sym) + (k : ℤ))
        ((groupTicks tks sym).filter
          (fun t => decide (bucketId d t.timestamp = symLo d (groupTicks tks sym) + (k : ℤ)))))
      (List.mem_range.mpr hk)
    simp only [hbk] at h0
    rw [symBars, if_neg (by simpa [List.isEmpty_iff] using hsubne)]
    exact h0
  refine ⟨mkBar d sym b
      ((groupTicks tks sym).filter (fun t => decide (bucketId d t.timestamp = b))), ?_, ?_⟩
  · exact List.mem_flatMap.mpr ⟨sym, hsymmem, hmem⟩
  · refine ⟨rfl, rfl, ?_, ?_, ?_, ?_, ?_⟩
    · rw [mkBar, hsubfilter]
    · rw [mkBar, hsubfilter]
    · rw [mkBar, hsubfilter]
      exact max?_perm ((List.perm_insertionSort tsLe _).map _)
    · rw [mkBar, hsubfilter]
      exact min?_perm ((List.perm_insertionSort tsLe _).map _)
    · rw [mkBar, hsubfilter]
      exact List.Perm.sum_eq ((List.perm_insertionSort tsLe _).map _)

unseal Rat.mul Rat.inv Rat.add Rat.sub in
/-- C1: (general part) for every bucket duration `d > 0`, tick buffer,
symbol and bucket `b` that contains at least one tick, the resampling pass
produces a bar for `(sym, b)` whose `open` is the price of the
chronologically first tick of the bucket (the head of the stable
timestamp sort, so insertion-order ties are preserved), `close` the price
of the chronologically last, `high`/`low` the maximum/minimum price of the
bucket, and `volume` the sum of its quantities.  (Scenario part) a fresh
store holding exactly the ticks `(t=0, BTCUSDT, 100, 1)`,
`(t=0.5, BTCUSDT, 101, 2)`, `(t=0.9, BTCUSDT, 99, 1)`, ingested in that
order, resamples at the 1-second timeframe to exactly one BTCUSDT bar
`{open: 100, high: 101, low: 99, close: 99, volume: 4}`. -/
theorem C1_resample_ohlcv :
    (∀ (d : ℚ) (tks : List Tick) (sym : String) (b : ℤ), 0 < d →
      bucketTicks d tks sym b ≠ [] →
      ∃ bar ∈ computeBars d tks,
        bar.symbol = sym ∧ bar.timestamp = (b : ℚ) * d ∧
        bar.open_ = ((chronSort (bucketTicks d tks sym b)).map (·.price)).head? ∧
        bar.close = ((chronSort (bucketTicks d tks sym b)).map (·.price)).getLast? ∧
        bar.high = ((bucketTicks d tks sym b).map (·.price)).max? ∧
        bar.low = ((bucketTicks d tks sym b).map (·.price)).min? ∧
        bar.volume = ((bucketTicks d tks sym b).map (·.quantity)).sum) ∧
    (resample_data demoStore none).resampled_1s = [demoBar] :=
  ⟨fun d tks sym b hd hne => computeBars_bucket d hd tks sym b hne, by decide⟩

unseal Rat.mul Rat.inv Rat.add Rat.sub in
/-- Witness for C1 at the scenario's bucket 0 of the 1-second timeframe. -/
theorem C1_resample_ohlcv_witness :
    (0 : ℚ) < 1 ∧ bucketTicks 1 demoTicks "BTCUSDT" 0 ≠ [] ∧
    (∃ bar ∈ computeBars 1 demoTicks,
      bar.symbol = "BTCUSDT" ∧ bar.timestamp = ((0 : ℤ) : ℚ) * 1 ∧
      bar.open_ = ((chronSort (bucketTicks 1 demoTicks "BTCUSDT" 0)).map (·.price)).head? ∧
      bar.close = ((chronSort (bucketTicks 1 demoTicks "BTCUSDT" 0)).map (·.price)).getLast? ∧
      bar.high = ((bucketTicks 1 demoTicks "BTCUSDT" 0).map (·.price)).max? ∧
      bar.low = ((bucketTicks 1 demoTicks "BTCUSDT" 0).map (·.price)).min? ∧
      bar.volume = ((bucketTicks 1 demoTicks "BTCUSDT" 0).map (·.quantity)).sum) :=
  ⟨by norm_num, by decide,
    C1_resample_ohlcv.1 1 demoTicks "BTCUSDT" 0 (by norm_num) (by decide)⟩

/-! ## C7 — resampling idempotence -/

theorem any_dedupLast (x : Bar) (l : List Bar) :
    (dedupLast l).any (fun c => decide (barKey c = barKey x))
      = l.any (fun c => decide (barKey c = barKey x)) := by
  induction l with
  | nil => rfl
  | cons b rest ih =>
    simp only [dedupLast]
    by_cases h : rest.any (fun c => decide (barKey c = barKey b)) = true
    · rw [if_pos h, ih]
      by_cases hbx : barKey b = barKey x
      · have hx : rest.any (fun c => decide (barKey c = barKey x)) = true := by
          rcases List.any_eq_true.mp h with ⟨c, hc, hcb⟩
          exact List.any_eq_true.mpr ⟨c, hc, by
            simp only [decide_eq_true_eq] at hcb ⊢
            rw [hcb, hbx]⟩
        simp [List.any_cons, hx]
      · simp [List.any_cons, hbx]
    · rw [if_neg h]
      simp [List.any_cons, ih]

theorem dedupLast_dedupLast_append (l n : List Bar) :
    dedupLast (dedupLast l ++ n) = dedupLast (l ++ n) := by
  induction l with
  | nil => rfl
  | cons b rest ih =>
    simp only [dedupLast, List.cons_append]
    by_cases h : rest.any (fun c => decide (barKey c = barKey b)) = true
    · rw [if_pos h, ih]
      have hcond : (rest ++ n).any (fun c => decide (barKey c = barKey b)) = true := by
        simp [List.any_append, h]
      simp [dedupLast, hcond]
    · rw [if_neg h]
      simp only [List.cons_append, List.append_eq, dedupLast, List.any_append,
        any_dedupLast, ih]

theorem dedupLast_append_of_subset (m n : List Bar)
    (h : ∀ a ∈ m, n.any (fun c => decide (barKey c = barKey a)) = true) :
    dedupLast (m ++ n) = dedupLast n := by
  induction m with
  | nil => rfl
  | cons b rest ih =>
    simp only [List.cons_append, List.append_eq, dedupLast]
    have hcond : (rest ++ n).any (fun c => decide (barKey c = barKey b)) = true := by
      simp [List.any_append, h b (List.mem_cons_self b rest)]
    rw [if_pos (by simpa [List.append_eq] using hcond)]
    exact ih (fun a ha => h a (List.mem_cons_of_mem b ha))

theorem dedupLast_append_self (l n : List Bar) :
    dedupLast (l ++ (n ++ n)) = dedupLast (l ++ n) := by
  induction l with
  | nil =>
    simp only [List.nil_append]
    exact dedupLast_append_of_subset n n
      (fun a ha => List.any_eq_true.mpr ⟨a, ha, by simp⟩)
  | cons b rest ih =>
    simp only [List.cons_append, List.append_eq, dedupLast, List.any_append,
      Bool.or_self, Bool.or_assoc, ih]

theorem dedupLast_eq_self (l : List Bar) (h : l.Pairwise (fun x y => barKey x ≠ barKey y)) :
    dedupLast l = l := by
  induction l with
  | nil => rfl
  | cons b rest ih =>
    obtain ⟨hb, hrest⟩ := List.pairwise_cons.mp h
    have hfalse : rest.any (fun c => decide (barKey c = barKey b)) = false := by
      rw [List.any_eq_false]
      intro c hc
      simpa using fun hcb => (hb c hc) hcb.symm
    rw [dedupLast, if_neg (by simp [hfalse]), ih hrest]

theorem dedupLast_ne_nil (l : List Bar) (h : l ≠ []) : dedupLast l ≠ [] := by
  induction l with
  | nil => exact absurd rfl h
  | cons b rest ih =>
    simp only [dedupLast]
    by_cases hc : rest.any (fun c => decide (barKey c = barKey b)) = true
    · rw [if_pos hc]
      apply ih
      intro hr
      rw [hr] at hc
      simp at hc
    · rw [if_neg hc]
      exact List.cons_ne_nil _ _

theorem mergeTF_nil (n : List Bar) (hlen : n.length ≤ 2000) : mergeTF [] n = n := by
  show (if 2000 < n.length then pdTail 1000 n else n) = n
  rw [if_neg (by omega)]

theorem mergeTF_of_ne_nil (x n : List Bar) (hx : x ≠ [])
    (hlen : (dedupLast (x ++ n)).length ≤ 2000) :
    mergeTF x n = dedupLast (x ++ n) := by
  cases x with
  | nil => exact absurd rfl hx
  | cons c xr =>
    show (if 2000 < (dedupLast ((c :: xr) ++ n)).length
        then pdTail 1000 (dedupLast ((c :: xr) ++ n))
        else dedupLast ((c :: xr) ++ n)) = dedupLast ((c :: xr) ++ n)
    rw [if_neg (by omega)]

theorem mergeTF_idem (x n : List Bar)
    (hn : n.Pairwise (fun a b => barKey a ≠ barKey b))
    (h : mergedLen x n ≤ 2000) :
    mergeTF (mergeTF x n) n = mergeTF x n := by
  cases x with
  | nil =>
    have hlen : n.length ≤ 2000 := by simpa [mergedLen] using h
    rw [mergeTF_nil n hlen]
    cases n with
    | nil => rfl
    | cons b rest =>
      have h1 : dedupLast ((b :: rest) ++ (b :: rest)) = b :: rest := by
        have h2 := dedupLast_append_self [] (b :: rest)
        simp only [List.nil_append] at h2
        rw [h2, dedupLast_eq_self _ hn]
      rw [mergeTF_of_ne_nil (b :: rest) (b :: rest) (List.cons_ne_nil b rest)
        (by rw [h1]; exact hlen), h1]
  | cons c xr =>
    have hlen : (dedupLast ((c :: xr) ++ n)).length ≤ 2000 := by
      simpa [mergedLen] using h
    rw [mergeTF_of_ne_nil (c :: xr) n (List.cons_ne_nil c xr) hlen]
    have hyne : dedupLast ((c :: xr) ++ n) ≠ [] := dedupLast_ne_nil _ (by simp)
    have hkey : dedupLast (dedupLast ((c :: xr) ++ n) ++ n) = dedupLast ((c :: xr) ++ n) := by
      rw [dedupLast_dedupLast_append, List.append_assoc]
      exact dedupLast_append_self (c :: xr) n
    rw [mergeTF_of_ne_nil _ n hyne (by rw [hkey]; exact hlen), hkey]

theorem symBars_symbol (d : ℚ) (sym : String) (sub : List Tick) :
    ∀ bar ∈ symBars d sym sub, bar.symbol = sym := by
  intro bar hbar
  simp only [symBars] at hbar
  split at hbar
  · cases hbar
  · obtain ⟨k, _, hk⟩ := List.mem_map.mp hbar
    rw [← hk]
    rfl

theorem symBars_pairwise (d : ℚ) (hd : 0 < d) (sym : String) (sub : List Tick) :
    (symBars d sym sub).Pairwise (fun a b => barKey a ≠ barKey b) := by
  simp only [symBars]
  split
  · exact List.Pairwise.nil
  · rw [List.pairwise_map]
    refine (List.pairwise_lt_range _).imp ?_
    intro i j hij
    simp only [barKey, mkBar, ne_eq, Prod.mk.injEq, not_and]
    intro hts
    exfalso
    have hne : ((symLo d sub + (i : ℤ) : ℤ) : ℚ) ≠ ((symLo d sub + (j : ℤ) : ℤ) : ℚ) := by
      rw [ne_eq, Int.cast_injective.eq_iff]
      omega
    exact hne (mul_right_cancel₀ (ne_of_gt hd) hts)

theorem symbolsSorted_nodup (tks : List Tick) : (symbolsSorted tks).Nodup :=
  (List.perm_insertionSort strLe _).nodup_iff.mpr (List.nodup_dedup _)

theorem flatMap_symBars_pairwise (d : ℚ) (hd : 0 < d) (tks : List Tick) :
    ∀ (syms : List String), syms.Nodup →
      (syms.flatMap (fun sym => symBars d sym (groupTicks tks sym))).Pairwise
        (fun a b => barKey a ≠ barKey b) := by
  intro syms
  induction syms with
  | nil => intro _; exact List.Pairwise.nil
  | cons s rest ih =>
    intro hnd
    rw [List.flatMap_cons, List.pairwise_append]
    obtain ⟨hs, hrest⟩ := List.nodup_cons.mp hnd
    refine ⟨symBars_pairwise d hd s _, ih hrest, ?_⟩
    intro a ha b hb
    obtain ⟨s2, hs2, hb2⟩ := List.mem_flatMap.mp hb
    have ha2 : a.symbol = s := symBars_symbol d s _ a ha
    have hb3 : b.symbol = s2 := symBars_symbol d s2 _ b hb2
    have hss : s ≠ s2 := fun hss => hs (hss ▸ hs2)
    simp only [barKey, ne_eq, Prod.mk.injEq, not_and]
    intro _
    rw [ha2, hb3]
    exact hss

theorem computeBars_pairwise (d : ℚ) (hd : 0 < d) (tks : List Tick) :
    (computeBars d tks).Pairwise (fun a b => barKey a ≠ barKey b) := by
  rw [computeBars]
  exact flatMap_symBars_pairwise d hd tks (symbolsSorted tks) (symbolsSorted_nodup tks)

theorem tickView_resample (s : DataStore) (sym sym2 : Option String) :
    tickView (resample_data s sym) sym2 = tickView s sym2 := by
  simp only [tickView]
  cases sym2 <;> rw [resample_data_tick_data]

/-- C7 amended: calling `resample_data` a second time with no new ticks
leaves every stored timeframe frame (and hence the whole store) unchanged,
PROVIDED the first call triggered no retention trim — i.e. for every
timeframe the merged, deduplicated frame stayed within the 2000-bar cap.
Without that proviso the claim is false (see the counterexample): the trim
to the most recent 1000 bars discards bars that the second call's merge
regenerates from the still-retained raw ticks. -/
theorem C7_resample_idempotent_no_trim (s : DataStore) (symbol : Option String)
    (h1 : mergedLen s.resampled_1s (computeBars 1 (tickView s symbol)) ≤ 2000)
    (h60 : mergedLen s.resampled_1min (computeBars 60 (tickView s symbol)) ≤ 2000)
    (h300 : mergedLen s.resampled_5min (computeBars 300 (tickView s symbol)) ≤ 2000) :
    resample_data (resample_data s symbol) symbol = resample_data s symbol := by
  by_cases hemp : (tickView s symbol).isEmpty = true
  · have he : resample_data s symbol = s := by
      simp only [resample_data, if_pos hemp]
    rw [he]
    exact he
  · set s1 := resample_data s symbol with hs1
    have e1 : s1 = { s with
        resampled_1s := mergeTF s.resampled_1s (computeBars 1 (tickView s symbol))
        resampled_1min := mergeTF s.resampled_1min (computeBars 60 (tickView s symbol))
        resampled_5min := mergeTF s.resampled_5min (computeBars 300 (tickView s symbol)) } := by
      rw [hs1]
      simp only [resample_data, if_neg hemp]
    have hTV : tickView s1 symbol = tickView s symbol := by
      rw [hs1]
      exact tickView_resample s symbol symbol
    have hemp2 : ¬ (tickView s1 symbol).isEmpty = true := by
      rw [hTV]
      exact hemp
    have e2 : resample_data s1 symbol = { s1 with
        resampled_1s := mergeTF s1.resampled_1s (computeBars 1 (tickView s1 symbol))
        resampled_1min := mergeTF s1.resampled_1min (computeBars 60 (tickView s1 symbol))
        resampled_5min := mergeTF s1.resampled_5min (computeBars 300 (tickView s1 symbol)) } := by
      simp only [resample_data, if_neg hemp2]
    rw [e2, hTV, e1]
    dsimp only
    rw [mergeTF_idem _ _ (computeBars_pairwise 1 (by norm_num) _) h1,
      mergeTF_idem _ _ (computeBars_pairwise 60 (by norm_num) _) h60,
      mergeTF_idem _ _ (computeBars_pairwise 300 (by norm_num) _) h300]

unseal Rat.mul Rat.inv Rat.add Rat.sub in
/-- Witness for the amended C7 at the small scenario store (no trim can
occur: each merged frame holds a single bar). -/
theorem C7_resample_idempotent_no_trim_witness :
    resample_data (resample_data demoStore none) none = resample_data demoStore none :=
  C7_resample_idempotent_no_trim demoStore none (by decide) (by decide) (by decide)

/-! ### The C7 counterexample state and its evaluation -/

theorem dedup_replicate_succ (n : ℕ) (a : String) :
    (List.replicate (n + 1) a).dedup = [a] := by
  induction n with
  | zero => rfl
  | succ m ih =>
    rw [List.replicate_succ, List.dedup_cons_of_mem (by simp [List.mem_replicate])]
    exact ih

theorem cex_symbols : symbolsSorted cexTicks = ["BTCUSDT"] := by
  have h1 : cexTicks.map (·.symbol) = List.replicate 1501 "BTCUSDT" := by
    rw [cexTicks, List.map_map]
    rw [show ((fun t : Tick => t.symbol) ∘ cexTickAt) = (fun _ : ℕ => "BTCUSDT") from
      funext (fun i => rfl)]
    rw [List.map_const', List.length_range]
  rw [symbolsSorted, h1]
  rw [show (1501 : ℕ) = 1500 + 1 from by norm_num, dedup_replicate_succ]
  rfl

theorem cex_sorted : List.Sorted tsLe cexTicks := by
  rw [cexTicks, List.Sorted, List.pairwise_map]
  refine (List.pairwise_lt_range 1501).imp ?_
  intro i j hij
  show ((10000 + i : ℕ) : ℚ) ≤ ((10000 + j : ℕ) : ℚ)
  exact_mod_cast Nat.add_le_add_left (le_of_lt hij) 10000

theorem cex_group : groupTicks cexTicks "BTCUSDT" = cexTicks := by
  rw [groupTicks]
  have hf : cexTicks.filter (fun t => decide (t.symbol = "BTCUSDT")) = cexTicks := by
    rw [List.filter_eq_self]
    intro a ha
    rw [cexTicks] at ha
    obtain ⟨i, _, hi⟩ := List.mem_map.mp ha
    rw [← hi]
    simp [cexTickAt]
  rw [hf, chronSort, (cex_sorted).insertionSort_eq]

theorem cex_head : cexTicks.headD dummyTick = cexTickAt 0 := by
  rw [cexTicks, show (1501 : ℕ) = 1500 + 1 from by norm_num, List.range_succ_eq_map]
  rfl

theorem cex_last : cexTicks.getLastD dummyTick = cexTickAt 1500 := by
  rw [cexTicks, show (1501 : ℕ) = 1500 + 1 from by norm_num, List.range_succ,
    List.map_append]
  simp [List.getLastD_concat]

theorem cex_lo : symLo 1 cexTicks = 10000 := by
  rw [symLo, cex_head, bucketId]
  rw [show (cexTickAt 0).timestamp = ((10000 : ℕ) : ℚ) from by norm_num [cexTickAt]]
  rw [div_one, Int.floor_natCast]
  norm_num

theorem cex_hi : symHi 1 cexTicks = 11500 := by
  rw [symHi, cex_last, bucketId]
  rw [show (cexTickAt 1500).timestamp = ((11500 : ℕ) : ℚ) from by norm_num [cexTickAt]]
  rw [div_one, Int.floor_natCast]
  norm_num

theorem cex_ticks_ne_nil : cexTicks ≠ [] := by
  intro h
  have := congrArg List.length h
  simp [cexTicks] at this

theorem cex_bars : computeBars 1 cexTicks = (List.range 1501).map cexNewBar := by
  rw [computeBars, cex_symbols, List.flatMap_cons, List.flatMap_nil, List.append_nil,
    cex_group, symBars]
  rw [if_neg (by simp only [List.isEmpty_iff]; exact cex_ticks_ne_nil)]
  rw [cex_lo, cex_hi]
  rw [show ((11500 - 10000 + 1 : ℤ).toNat) = 1501 from by decide]
  apply List.map_congr_left
  intro k hk
  have hkr : k < 1501 := List.mem_range.mp hk
  have hfilter : cexTicks.filter
      (fun t => decide (bucketId 1 t.timestamp = 10000 + (k : ℤ)))
      = [cexTickAt k] := by
    rw [cexTicks, List.filter_map]
    have hcongr : (List.range 1501).filter
        ((fun t => decide (bucketId 1 t.timestamp = 10000 + (k : ℤ))) ∘ cexTickAt)
        = (List.range 1501).filter (fun i => decide (i = k)) := by
      apply List.filter_congr
      intro i _
      simp only [Function.comp_apply]
      rw [decide_eq_decide]
      have hb : bucketId 1 ((cexTickAt i).timestamp) = ((10000 + i : ℕ) : ℤ) := by
        rw [cexTickAt, bucketId]
        rw [div_one]
        exact Int.floor_natCast _
      rw [hb]
      constructor
      · intro h
        have h2 : (10000 + i : ℤ) = 10000 + (k : ℤ) := by exact_mod_cast h
        omega
      · intro h
        subst h
        push_cast
        ring
    rw [hcongr, List.filter_eq,
      List.count_eq_one_of_mem (List.nodup_range 1501) (List.mem_range.mpr hkr)]
    rfl
  rw [hfilter]
  rw [cexNewBar, mkBar]
  simp only [List.map_cons, List.map_nil, Bar.mk.injEq, List.sum_singleton, cexTickAt]
  push_cast
  exact ⟨mul_one _, trivial, rfl, rfl, rfl, rfl, trivial⟩

theorem cexNew_pairwise :
    ((List.range 1501).map cexNewBar).Pairwise (fun a b => barKey a ≠ barKey b) := by
  rw [← cex_bars]
  exact computeBars_pairwise 1 (by norm_num) cexTicks

theorem cexOld_pairwise : cexOldBars.Pairwise (fun a b => barKey a ≠ barKey b) := by
  rw [cexOldBars, List.pairwise_map]
  refine (List.pairwise_lt_range 1000).imp ?_
  intro i j hij h
  have hts : ((i : ℕ) : ℚ) = ((j : ℕ) : ℚ) := congrArg Prod.fst h
  have : i = j := by exact_mod_cast hts
  omega

theorem cex_cross :
    ∀ a ∈ cexOldBars, ∀ b ∈ (List.range 1501).map cexNewBar, barKey a ≠ barKey b := by
  intro a ha b hb
  rw [cexOldBars] at ha
  obtain ⟨i, hi, hia⟩ := List.mem_map.mp ha
  obtain ⟨k, hk, hkb⟩ := List.mem_map.mp hb
  have hi2 : i < 1000 := List.mem_range.mp hi
  intro h
  rw [← hia, ← hkb] at h
  have hts := congrArg Prod.fst h
  simp only [barKey, cexOldBar, cexNewBar] at hts
  have : i = 10000 + k := by exact_mod_cast hts
  omega

theorem mergeTF_trim (x n : List Bar) (hx : x ≠ []) (hded : dedupLast (x ++ n) = x ++ n)
    (hlen : 2000 < (x ++ n).length) :
    mergeTF x n = (x ++ n).drop ((x ++ n).length - 1000) := by
  cases x with
  | nil => exact absurd rfl hx
  | cons c xr =>
    show (if 2000 < (dedupLast ((c :: xr) ++ n)).length
        then pdTail 1000 (dedupLast ((c :: xr) ++ n))
        else dedupLast ((c :: xr) ++ n)) = _
    rw [hded, if_pos hlen]
    rfl

theorem cexOld_ne_nil : cexOldBars ≠ [] := by
  intro h
  have := congrArg List.length h
  simp [cexOldBars] at this

theorem cex_first_call :
    (resample_data cexStore none).resampled_1s
      = ((List.range 1501).map cexNewBar).drop 501 := by
  have hemp : ¬ (tickView cexStore none).isEmpty = true := by
    simp only [tickView, List.isEmpty_iff]
    exact cex_ticks_ne_nil
  simp only [resample_data, if_neg hemp]
  rw [show tickView cexStore none = cexTicks from rfl]
  rw [show cexStore.resampled_1s = cexOldBars from rfl]
  rw [cex_bars]
  have hpair : (cexOldBars ++ (List.range 1501).map cexNewBar).Pairwise
      (fun a b => barKey a ≠ barKey b) := by
    rw [List.pairwise_append]
    exact ⟨cexOld_pairwise, cexNew_pairwise, cex_cross⟩
  have hded := dedupLast_eq_self _ hpair
  have hlen : (cexOldBars ++ (List.range 1501).map cexNewBar).length = 2501 := by
    simp [cexOldBars, List.length_append, List.length_map, List.length_range]
  rw [mergeTF_trim _ _ cexOld_ne_nil hded (by omega)]
  rw [hlen]
  rw [show (2501 - 1000 : ℕ) = cexOldBars.length + 501 from by simp [cexOldBars]]
  rw [List.drop_append]

theorem cex_second_call :
    (resample_data (resample_data cexStore none) none).resampled_1s
      = (List.range 1501).map cexNewBar := by
  set s1 := resample_data cexStore none with hs1
  have htd : s1.tick_data = cexTicks := by
    rw [hs1]
    exact resample_data_tick_data cexStore none
  have hemp : ¬ (tickView s1 none).isEmpty = true := by
    simp only [tickView, htd, List.isEmpty_iff]
    exact cex_ticks_ne_nil
  simp only [resample_data, if_neg hemp]
  rw [show tickView s1 none = s1.tick_data from rfl, htd]
  have hr : s1.resampled_1s = ((List.range 1501).map cexNewBar).drop 501 := by
    rw [hs1]
    exact cex_first_call
  rw [cex_bars, hr]
  have hdrop_ne : ((List.range 1501).map cexNewBar).drop 501 ≠ [] := by
    intro h
    have := congrArg List.length h
    simp [List.length_drop, List.length_map, List.length_range] at this
  have hsub : ∀ a ∈ ((List.range 1501).map cexNewBar).drop 501,
      ((List.range 1501).map cexNewBar).any (fun c => decide (barKey c = barKey a)) = true := by
    intro a ha
    exact List.any_eq_true.mpr ⟨a, List.drop_subset 501 _ ha, by simp⟩
  have hded : dedupLast (((List.range 1501).map cexNewBar).drop 501
      ++ (List.range 1501).map cexNewBar) = (List.range 1501).map cexNewBar := by
    rw [dedupLast_append_of_subset _ _ hsub, dedupLast_eq_self _ cexNew_pairwise]
  have hlen : ((List.range 1501).map cexNewBar).length = 1501 := by
    simp [List.length_map, List.length_range]
  rw [mergeTF_of_ne_nil _ _ hdrop_ne (by rw [hded]; omega), hded]

/-- C7 counterexample: on `cexStore` — 1501 retained ticks in distinct
1-second buckets together with 1000 stale stored bars whose buckets no
longer occur in the tick buffer — the first `resample_data` call merges to
2501 bars and trims the 1-second frame to the most recent 1000 bars, while
the second call (with no ticks added in between) rebuilds all 1501 bars
from the unchanged raw buffer, deduplicates them against the trimmed 1000,
and stores 1501 bars without trimming.  The stored 1-second series after
the second call differs from the series after the first call, refuting the
claim that a second `resample_data` call always leaves each stored
timeframe series unchanged. -/
theorem C7_resample_not_idempotent_cex :
    (resample_data (resample_data cexStore none) none).resampled_1s
      ≠ (resample_data cexStore none).resampled_1s := by
  rw [cex_second_call, cex_first_call]
  intro h
  have := congrArg List.length h
  simp [List.length_drop, List.length_map, List.length_range] at this


end QuantAnalysis
